import Mathlib

/-!
Verification of the dependency-resolution and class-lookup pipeline of the
java-jar-mcp repository.  The TypeScript sources (`mavenParser.ts`,
`jarLocator.ts`, `classExtractor.ts` and the MCP tool layer) are shallowly
embedded as executable Lean definitions; filesystem and archive reads are
abstracted as oracle functions carried in explicit structures.  JavaScript
strings are modelled as Lean `String`/`List Char`; JavaScript string
truthiness (`""` is falsy, like `undefined`) is modelled explicitly where the
source relies on it.
-/

set_option maxHeartbeats 1000000

/-- The character `{` (written via its code so it can also appear in strings). -/
def lbrace : Char := Char.ofNat 123

/-- The character `}`. -/
def rbrace : Char := Char.ofNat 125

/-- Does `s` start with `p`?  (models JavaScript `String.startsWith`). -/
def charsStartsWith : List Char → List Char → Bool
  | _, [] => true
  | [], _ :: _ => false
  | c :: s, d :: p => c == d && charsStartsWith s p

/-- Does `s` end with `p`?  (models JavaScript `String.endsWith`). -/
def charsEndsWith (s p : List Char) : Bool :=
  charsStartsWith s.reverse p.reverse

/-- Does `s` contain `p` as a contiguous substring? (models `String.includes`). -/
def charsContains : List Char → List Char → Bool
  | [], p => p.isEmpty
  | c :: s, p => charsStartsWith (c :: s) p || charsContains s p

/-- `String`-level wrapper for `charsEndsWith`. -/
def strEndsWith (s p : String) : Bool := charsEndsWith s.data p.data

/-- `String`-level wrapper for `charsContains`. -/
def strContainsSubstr (s p : String) : Bool := charsContains s.data p.data

/-- Replace every `/` by `.` (models `x.replace(/\//g, '.')`). -/
def slashesToDots (cs : List Char) : List Char :=
  cs.map (fun c => if c = '/' then '.' else c)

/-- Replace every `.` by `/` (models `x.replace(/\./g, '/')`). -/
def dotsToSlashes (cs : List Char) : List Char :=
  cs.map (fun c => if c = '.' then '/' else c)

/-- JavaScript `a || b` on strings: `""` is falsy. -/
def jsOr (a b : String) : String := if a == "" then b else a

/-- JavaScript `a || b` where `a` is a possibly-absent string: `undefined` and
`""` are both falsy. -/
def optJsOr (a : Option String) (b : String) : String :=
  match a with
  | none => b
  | some s => if s == "" then b else s

/-- JavaScript truthiness of a possibly-absent string. -/
def optStrTruthy (a : Option String) : Bool :=
  match a with
  | none => false
  | some s => s != ""

/-!
## Class Representation Extractor (`classExtractor.ts`)

`parseTypeDescriptor` (lines 197-238): consumes one JVM type descriptor from
position `startIndex` of `descriptor`, returning the readable type and the
index just past the consumed descriptor.
-/

/-- First index of character `c` in `cs` at position `≥ start`
(models `descriptor.indexOf(c, start)`, with `none` for `-1`). -/
def indexOfFrom (cs : List Char) (c : Char) (start : Nat) : Option Nat :=
  match (cs.drop start).findIdx? (· == c) with
  | none => none
  | some k => some (start + k)

/-- `ClassExtractor.parseTypeDescriptor(descriptor, startIndex)` rephrased on
the suffix `descriptor.drop startIndex`: one case per leading character
(the source's `switch (char)`); the result is the readable type together
with the number of characters consumed, i.e. the source's
`nextIndex - startIndex`.  In the `L` case the source computes
`endIndex = descriptor.indexOf(';', startIndex)` and takes
`substring(startIndex + 1, endIndex)` with `nextIndex = endIndex + 1`;
relative to the suffix that is the first `;` at relative index `k ≥ 1`,
the name `rest.take (k - 1)` and `k + 1` consumed characters. -/
def parseTypeFrom : List Char → String × Nat
  | [] => ("void", 0)
  | c :: rest =>
    match c with
    | 'B' => ("byte", 1)
    | 'C' => ("char", 1)
    | 'D' => ("double", 1)
    | 'F' => ("float", 1)
    | 'I' => ("int", 1)
    | 'J' => ("long", 1)
    | 'S' => ("short", 1)
    | 'Z' => ("boolean", 1)
    | 'V' => ("void", 1)
    | 'L' =>
      match indexOfFrom (c :: rest) ';' 0 with
      | none => ("Object", 1)
      | some k => (String.mk (slashesToDots (rest.take (k - 1))), k + 1)
    | '[' => ((parseTypeFrom rest).1 ++ "[]", (parseTypeFrom rest).2 + 1)
    | _ => ("Object", 1)

/-- `ClassExtractor.parseTypeDescriptor` (lines 197-238) in the source's
index form: an index at or past the end yields `void` without advancing
(the suffix is empty and zero characters are consumed). -/
def parseTypeDescriptor (descriptor : List Char) (startIndex : Nat) : String × Nat :=
  ((parseTypeFrom (descriptor.drop startIndex)).1,
    startIndex + (parseTypeFrom (descriptor.drop startIndex)).2)

/-- The parameter-consuming loop of `parseMethodDescriptor` (lines 180-186)
with an explicit iteration budget: starting from index `i`, repeatedly
consume one type descriptor and collect the readable types until the segment
is exhausted.  Each iteration advances the index by at least one
(`parseTypeDescriptor_progress`), so any budget exceeding the remaining
length is sufficient (`parseParamsF_congr` below). -/
def parseParamsF : Nat → List Char → Nat → List String
  | 0, _, _ => []
  | fuel + 1, s, i =>
    if i < s.length then
      (parseTypeDescriptor s i).1 :: parseParamsF fuel s (parseTypeDescriptor s i).2
    else []

/-- The parameter-consuming loop, with a budget that is always sufficient. -/
def parseParams (s : List Char) (i : Nat) : List String :=
  parseParamsF (s.length + 1) s i

/-- Result of parsing a method descriptor. -/
structure MethodSig where
  returnType : String
  parameters : List String
deriving DecidableEq, Repr

/-- Index of the `)` selected by the regex `^\((.*)\)(.+)$` of
`parseMethodDescriptor`: the greedy `(.*)` makes it the **last** `)` that
still leaves at least one character for `(.+)`, i.e. the largest `j` with
`j ≤ length - 2` holding `)`. -/
def lastParamClose (s : List Char) : Option Nat :=
  match (s.take (s.length - 1)).reverse.findIdx? (· == ')') with
  | none => none
  | some r => some (s.length - 2 - r)

/-- `ClassExtractor.parseMethodDescriptor` (lines 168-192): split
`(params)return` via the regex `^\((.*)\)(.+)$` (no match yields
`void` with no parameters), then parse the parameter segment with the
consuming loop and the return segment from index 0. -/
def parseMethodDescriptor (descriptor : String) : MethodSig :=
  let s := descriptor.data
  match s, lastParamClose s with
  | '(' :: rest, some j =>
      { returnType := (parseTypeDescriptor (rest.drop j) 0).1,
        parameters := parseParams (rest.take (j - 1)) 0 }
  | _, _ => { returnType := "void", parameters := [] }

/-- Core of `getAccessFlags` as a function of the nine tested bits, keeping
the source's structure: an else-if visibility chain, the fixed-order other
modifiers, and the `unshift('public')` default when no visibility matched. -/
def accessFlagsCore (isPub isPriv isProt isStatic isFinal isSync isNative isAbstract isStrict : Bool) :
    List String :=
  let visibility : List String :=
    if isPub then ["public"]
    else if isPriv then ["private"]
    else if isProt then ["protected"]
    else []
  let modifiers := visibility
    ++ (if isStatic then ["static"] else [])
    ++ (if isFinal then ["final"] else [])
    ++ (if isSync then ["synchronized"] else [])
    ++ (if isNative then ["native"] else [])
    ++ (if isAbstract then ["abstract"] else [])
    ++ (if isStrict then ["strictfp"] else [])
  if modifiers.any (fun m => m == "public" || m == "private" || m == "protected") then
    modifiers
  else
    "public" :: modifiers

/-- `ClassExtractor.getAccessFlags` (lines 251-274) on a flag word. -/
def getAccessFlags (flags : Nat) : List String :=
  accessFlagsCore (flags &&& 0x0001 != 0) (flags &&& 0x0002 != 0) (flags &&& 0x0004 != 0)
    (flags &&& 0x0008 != 0) (flags &&& 0x0010 != 0) (flags &&& 0x0020 != 0)
    (flags &&& 0x0100 != 0) (flags &&& 0x0400 != 0) (flags &&& 0x0800 != 0)

/-- The single visibility keyword the claim predicts for a flag word. -/
def visibilityKeyword (flags : Nat) : String :=
  if flags &&& 0x0001 != 0 then "public"
  else if flags &&& 0x0002 != 0 then "private"
  else if flags &&& 0x0004 != 0 then "protected"
  else "public"

/-- The non-visibility modifiers the claim predicts, in the fixed order
static, final, synchronized, native, abstract, strictfp. -/
def orderedOtherModifiers (flags : Nat) : List String :=
  (if flags &&& 0x0008 != 0 then ["static"] else [])
    ++ (if flags &&& 0x0010 != 0 then ["final"] else [])
    ++ (if flags &&& 0x0020 != 0 then ["synchronized"] else [])
    ++ (if flags &&& 0x0100 != 0 then ["native"] else [])
    ++ (if flags &&& 0x0400 != 0 then ["abstract"] else [])
    ++ (if flags &&& 0x0800 != 0 then ["strictfp"] else [])

/-!
## Glob search (`searchClassesInJar`, lines 589-614)

The source builds `new RegExp(searchPattern.replace(/\*/g, '.*').replace(/\?/g, '.'))`
and calls `pattern.test(className)`.  The regex produced from a glob pattern
made of `*`, `?` and ordinary characters consists of `.*` runs, `.`
wildcards and literal characters; note that a literal `.` in the glob is
itself a regex wildcard, and that `test` is an **unanchored** substring
search.  Patterns containing other regex metacharacters are outside this
model (the claims only use letters, dots, `*` and `?`).
-/

/-- One token of the regex compiled from a glob pattern. -/
inductive GlobTok where
  | anySeq : GlobTok
  | anyChar : GlobTok
  | lit : Char → GlobTok
deriving DecidableEq, Repr

/-- Tokenize the regex obtained from `searchPattern.replace(/\*/g, '.*').replace(/\?/g, '.')`:
`*` becomes `.*` (any sequence), `?` becomes `.` (any character), and a
literal `.` of the glob is the regex wildcard `.` as well. -/
def globToRegex (pattern : List Char) : List GlobTok :=
  pattern.map (fun c =>
    if c = '*' then GlobTok.anySeq
    else if c = '?' then GlobTok.anyChar
    else if c = '.' then GlobTok.anyChar
    else GlobTok.lit c)

/-- All suffixes of a character list (including itself and the empty one). -/
def listSuffixes : List Char → List (List Char)
  | [] => [[]]
  | c :: s => (c :: s) :: listSuffixes s

/-- Does the token list match some prefix of `s` when matching starts exactly
at the head of `s`?  `.*` may absorb any number of characters. -/
def matchHere : List GlobTok → List Char → Bool
  | [], _ => true
  | GlobTok.anySeq :: ts, s => (listSuffixes s).any (fun s' => matchHere ts s')
  | GlobTok.anyChar :: _, [] => false
  | GlobTok.anyChar :: ts, _ :: s => matchHere ts s
  | GlobTok.lit _ :: _, [] => false
  | GlobTok.lit c :: ts, d :: s => c == d && matchHere ts s

/-- JavaScript `RegExp.prototype.test`: unanchored — the pattern may match a
substring starting at any position. -/
def regexTest (ts : List GlobTok) (s : List Char) : Bool :=
  (listSuffixes s).any (fun s' => matchHere ts s')

/-- `ClassExtractor.searchClassesInJar` on the entry-name list of an archive:
keep the `.class` entries, convert to dotted class names, and filter by the
unanchored regex compiled from the glob. -/
def searchClassesInJar (entries : List String) (searchPattern : String) : List String :=
  let toks := globToRegex searchPattern.data
  entries.filterMap (fun entryName =>
    if strEndsWith entryName ".class" then
      let className := String.mk (slashesToDots (entryName.data.take (entryName.data.length - 6)))
      if regexTest toks className.data then some className else none
    else none)

/-- The dotted class names of all `.class` entries, with no pattern filter:
what the claim says pattern `*` must return. -/
def allClassNames (entries : List String) : List String :=
  entries.filterMap (fun entryName =>
    if strEndsWith entryName ".class" then
      some (String.mk (slashesToDots (entryName.data.take (entryName.data.length - 6))))
    else none)

/-!
## Archive Locator (`jarLocator.ts`)

Filesystem access is abstracted: `fileExists` models `fs.existsSync`, and
`entries jarPath` models reading the archive's entry list — `none` means the
archive could not be read by either reader (`adm-zip`, then the `yauzl`
fallback), in which case `classExistsInJar` resolves `false`.
-/

/-- Oracle view of the filesystem as `jarLocator.ts` uses it. -/
structure JarFS where
  fileExists : String → Bool
  entries : String → Option (List String)

/-- A Maven dependency coordinate as produced by `mavenParser.ts`
(`MavenDependency` interface).  Absent optional fields are `none`;
`exclusions = []` models an absent exclusion array. -/
structure MavenDependency where
  groupId : String
  artifactId : String
  version : String
  scope : Option String := none
  classifier : Option String := none
  optional : Bool := false
  exclusions : List (String × String) := []
  depth : Option Nat := none
deriving DecidableEq, Repr

/-- The `groupId:artifactId` identity key used for conflict mediation and
cycle detection. -/
def depKey (d : MavenDependency) : String := d.groupId ++ ":" ++ d.artifactId

/-- The mediation depth: `dep.depth ?? 0`. -/
def depDepth (d : MavenDependency) : Nat := d.depth.getD 0

/-- `JarLocator.locateJar` (lines 18-42): conventional repository path, with
classifier first and an unclassified fallback. -/
def locateJar (fs : JarFS) (mavenRepoPath : String) (dep : MavenDependency) : Option String :=
  let groupPath := String.mk (dotsToSlashes dep.groupId.data)
  let versionDir := mavenRepoPath ++ "/" ++ groupPath ++ "/" ++ dep.artifactId ++ "/" ++ dep.version
  let baseName :=
    if optStrTruthy dep.classifier then
      dep.artifactId ++ "-" ++ dep.version ++ "-" ++ dep.classifier.getD "" ++ ".jar"
    else dep.artifactId ++ "-" ++ dep.version ++ ".jar"
  let jarPath := versionDir ++ "/" ++ baseName
  if fs.fileExists jarPath then some jarPath
  else
    let simpleJarPath := versionDir ++ "/" ++ dep.artifactId ++ "-" ++ dep.version ++ ".jar"
    if fs.fileExists simpleJarPath then some simpleJarPath
    else none

/-- `JarLocator.classExistsInJar` (lines 85-141): scan the entry list for an
exact match or a `/`-prefixed or plain suffix match; an unreadable archive
(both readers fail) yields `false` rather than an error. -/
def classExistsInJar (fs : JarFS) (jarPath classPath : String) : Bool :=
  match fs.entries jarPath with
  | none => false
  | some es => es.any (fun entryName =>
      entryName == classPath
        || strEndsWith entryName ("/" ++ classPath)
        || strEndsWith entryName classPath)

/-- The slash-form class path of a dotted class name (`findJarForClass` line 65). -/
def classPathOf (className : String) : String :=
  String.mk (dotsToSlashes className.data) ++ ".class"

/-- `JarLocator.findJarForClass` (lines 63-80): scan the coordinates in input
order; a coordinate whose archive cannot be located or does not contain the
class is skipped, and `none` is returned when no candidate contains it. -/
def findJarForClass (fs : JarFS) (mavenRepoPath : String) (className : String) :
    List MavenDependency → Option (String × MavenDependency)
  | [] => none
  | dep :: rest =>
    match locateJar fs mavenRepoPath dep with
    | none => findJarForClass fs mavenRepoPath className rest
    | some jarPath =>
        if classExistsInJar fs jarPath (classPathOf className) then some (jarPath, dep)
        else findJarForClass fs mavenRepoPath className rest

/-!
## Descriptor Resolver (`mavenParser.ts`)

The XML-access idioms `dep.groupId || dep.groupid || ''` are pre-collapsed
into single raw fields; filesystem reads (`parsePomFile`,
`locatePomInRepository`, `parseParentPom`) are abstracted as oracles in a
`MavenRepo` structure.  JavaScript `Map`s are modelled as insertion-ordered
association lists: `mapSet` replaces the value at the key's original
position or appends, exactly like `Map.prototype.set`.
-/

/-- `Map.prototype.set`: replace in place, else append. -/
def mapSet {α : Type} : List (String × α) → String → α → List (String × α)
  | [], k, v => [(k, v)]
  | (k', v') :: rest, k, v =>
    if k' == k then (k, v) :: rest else (k', v') :: mapSet rest k v

/-- `Map.prototype.get`. -/
def mapGet {α : Type} : List (String × α) → String → Option α
  | [], _ => none
  | (k', v') :: rest, k => if k' == k then some v' else mapGet rest k

/-- `new Map(entries)`: sequential `set` of each entry into an empty map. -/
def mapFromEntries {α : Type} (l : List (String × α)) : List (String × α) :=
  l.foldl (fun m kv => mapSet m kv.1 kv.2) []

/-- One raw `<exclusion>` element (fields may be missing). -/
structure RawExclusion where
  groupId : Option String := none
  artifactId : Option String := none
deriving DecidableEq, Repr

/-- One raw `<dependency>` element, with the `a || b || ''` tag-case
coalescing already applied to the string fields. -/
structure RawDep where
  groupId : String := ""
  artifactId : String := ""
  version : String := ""
  scope : Option String := none
  optional : Bool := false
  classifier : Option String := none
  exclusions : List RawExclusion := []
deriving DecidableEq, Repr

/-- One raw `<dependencyManagement>` dependency element. -/
structure RawManagedDep where
  groupId : String := ""
  artifactId : String := ""
  version : String := ""
  scope : Option String := none
deriving DecidableEq, Repr

/-- The raw `<parent>` element of a project. -/
structure RawParent where
  groupId : Option String := none
  artifactId : Option String := none
  version : Option String := none
  relativePath : Option String := none
deriving DecidableEq, Repr

/-- A parsed project object (the `project` value produced by `parsePomFile`),
restricted to the parts the resolver reads. -/
structure RawProject where
  groupId : Option String := none
  artifactId : Option String := none
  version : Option String := none
  parent : Option RawParent := none
  properties : List (String × String) := []
  dependencies : List RawDep := []
  dependencyManagement : List RawManagedDep := []
deriving DecidableEq, Repr

/-- The `parent` field of a `PomContext`. -/
structure ParentRef where
  groupId : String
  artifactId : String
  version : String
  relativePath : Option String := none
deriving DecidableEq, Repr

/-- `PomContext`: merged property and version-management tables. -/
structure PomContext where
  properties : List (String × String) := []
  dependencyManagement : List (String × MavenDependency) := []
  parent : Option ParentRef := none
deriving DecidableEq, Repr

/-- The two-character marker `$\x7b` that opens a property placeholder. -/
def placeholderMark : String := "$\x7b"

/-- Take characters up to the first closing brace: returns the name and the
remainder after the brace, or `none` when no closing brace exists. -/
def takeName : List Char → Option (List Char × List Char)
  | [] => none
  | c :: rest =>
    if c = rbrace then some ([], rest)
    else
      match takeName rest with
      | none => none
      | some (nm, rest') => some (c :: nm, rest')

theorem takeName_length : ∀ (cs nm rest' : List Char),
    takeName cs = some (nm, rest') → rest'.length < cs.length := by
  intro cs
  induction cs with
  | nil => intro nm rest' h; cases h
  | cons c rest ih =>
    intro nm rest' h
    unfold takeName at h
    by_cases hc : c = rbrace
    · rw [if_pos hc] at h
      cases h
      simp
    · rw [if_neg hc] at h
      cases hrec : takeName rest with
      | none => rw [hrec] at h; cases h
      | some p =>
        rw [hrec] at h
        cases h
        have := ih p.1 p.2 (by rw [hrec])
        simp
        omega

/-- The successive matches of the global regex `/\$\x7b([^\x7d]+)\x7d/g` over
a character list: each match is a `$\x7b`, at least one non-brace character,
then `\x7d`; scanning resumes after each match (`exec` in a `while` loop). -/
def scanPlaceholders (cs : List Char) : List String :=
  match cs with
  | [] => []
  | c :: rest =>
    if c = '$' then
      match rest with
      | [] => []
      | d :: rest2 =>
        if d = lbrace then
          match hm : takeName rest2 with
          | some (nm, rest') =>
            if nm.isEmpty then scanPlaceholders (d :: rest2)
            else String.mk nm :: scanPlaceholders rest'
          | none => scanPlaceholders (d :: rest2)
        else scanPlaceholders (d :: rest2)
    else scanPlaceholders rest
termination_by cs.length
decreasing_by
  all_goals simp_wf
  all_goals first
    | omega
    | exact Nat.lt_trans (takeName_length _ _ _ hm) (by omega)

/-- Object-property read `properties[name]` with `undefined` modelled as `""`
(the source only ever tests the result for truthiness or substitutes it). -/
def lookupProp (ps : List (String × String)) (k : String) : String :=
  match ps.find? (fun p => p.1 == k) with
  | none => ""
  | some p => p.2

/-- The `propValue` computation of `resolveProperty` (lines 211-238):
built-in Maven properties first (an else-if chain that never falls through),
then the project's own properties (with a lowercase retry), then the parent
context's property table. -/
def propValueFor (propName : String) (project : RawProject) (context : Option PomContext) : String :=
  if propName == "project.version" || propName == "pom.version" then
    optJsOr project.version ""
  else if propName == "project.groupId" || propName == "pom.groupId" then
    optJsOr project.groupId ""
  else if propName == "project.artifactId" || propName == "pom.artifactId" then
    optJsOr project.artifactId ""
  else if propName == "project.parent.version" || propName == "pom.parent.version" then
    match project.parent with
    | some par => optJsOr par.version ""
    | none => ""
  else if propName == "project.parent.groupId" || propName == "pom.parent.groupId" then
    match project.parent with
    | some par => optJsOr par.groupId ""
    | none => ""
  else if propName == "project.parent.artifactId" || propName == "pom.parent.artifactId" then
    match project.parent with
    | some par => optJsOr par.artifactId ""
    | none => ""
  else
    let v := jsOr (lookupProp project.properties propName)
      (lookupProp project.properties propName.toLower)
    if v == "" then
      match context with
      | some ctx => (mapGet ctx.properties propName).getD ""
      | none => ""
    else v

/-- Replace the first occurrence of `pat` in `s` by `rep`
(JavaScript `String.prototype.replace` with a string pattern). -/
def replaceFirstChars : List Char → List Char → List Char → List Char
  | [], _, _ => []
  | c :: rest, pat, rep =>
    if charsStartsWith (c :: rest) pat then rep ++ (c :: rest).drop pat.length
    else c :: replaceFirstChars rest pat rep

/-- One pass of the `while ((match = propertyRegex.exec(value)))` loop of
`resolveProperty`: the placeholders are scanned from the original `value`,
and each truthy property value replaces the first occurrence of its
placeholder text in the evolving `result`. -/
def substituteOnce (value : String) (project : RawProject) (context : Option PomContext) : String :=
  (scanPlaceholders value.data).foldl
    (fun result propName =>
      let propValue := propValueFor propName project context
      if propValue == "" then result
      else String.mk (replaceFirstChars result.data
        ('$' :: lbrace :: (propName.data ++ [rbrace])) propValue.data))
    value

/-- `MavenParser.resolveProperty` (lines 195-251).  The source recurses while
progress is made and a placeholder remains; on cyclically-defined properties
that recursion never stops (a stack overflow in JavaScript), so the model
carries an explicit recursion budget `fuel` and returns the current result
when it runs out — for any value whose resolution terminates in the source,
a large enough `fuel` gives the same answer. -/
def resolveProperty (fuel : Nat) (value : String) (project : RawProject)
    (context : Option PomContext) : String :=
  if value == "" then ""
  else if !(strContainsSubstr value placeholderMark) then value
  else
    let result := substituteOnce value project context
    if strContainsSubstr result placeholderMark && result != value then
      match fuel with
      | 0 => result
      | n + 1 => resolveProperty n result project context
    else result

/-- `MavenParser.extractProperties` (lines 379-400): seed the parent
context's entries, then layer the project's own (resolved) entries on top. -/
def extractProperties (fuel : Nat) (project : RawProject)
    (parentContext : Option PomContext) : List (String × String) :=
  let seeded :=
    match parentContext with
    | some ctx => ctx.properties.foldl (fun m kv => mapSet m kv.1 kv.2) []
    | none => []
  project.properties.foldl
    (fun m kv => mapSet m kv.1 (resolveProperty fuel kv.2 project parentContext)) seeded

/-- `MavenParser.extractDependencyManagement` (lines 332-374): seed the
parent context's entries, then layer the project's own entries on top;
entries whose resolved group or artifact is missing are skipped. -/
def extractDependencyManagement (fuel : Nat) (project : RawProject)
    (parentContext : Option PomContext) : List (String × MavenDependency) :=
  let seeded :=
    match parentContext with
    | some ctx => ctx.dependencyManagement.foldl (fun m kv => mapSet m kv.1 kv.2) []
    | none => []
  project.dependencyManagement.foldl
    (fun m dep =>
      let groupId := resolveProperty fuel dep.groupId project parentContext
      let artifactId := resolveProperty fuel dep.artifactId project parentContext
      let version := resolveProperty fuel dep.version project parentContext
      if groupId != "" && artifactId != "" then
        mapSet m (groupId ++ ":" ++ artifactId)
          { groupId := groupId, artifactId := artifactId, version := version,
            scope := dep.scope }
      else m) seeded

/-- `MavenParser.isExcluded` (lines 521-531). -/
def isExcluded (dep : MavenDependency) (exclusions : List (String × String)) : Bool :=
  exclusions.any (fun e =>
    (e.1 == "*" || e.1 == dep.groupId) && (e.2 == "*" || e.2 == dep.artifactId))

/-- The exclusion-element extraction loop shared by both dependency loops:
missing (or empty) group/artifact default to the wildcard `*`. -/
def resolveExclusions (raw : List RawExclusion) : List (String × String) :=
  raw.map (fun e => (optJsOr e.groupId "*", optJsOr e.artifactId "*"))

/-- The per-dependency resolution shared by both dependency loops: resolve
group, artifact and version through `resolveProperty`, then fall back to the
version-management table when the version is still missing. -/
def resolveDepEntry (fuel : Nat) (dep : RawDep) (project : RawProject)
    (context : PomContext) : String × String × String :=
  let groupId := resolveProperty fuel dep.groupId project (some context)
  let artifactId := resolveProperty fuel dep.artifactId project (some context)
  let version0 := resolveProperty fuel dep.version project (some context)
  let version :=
    match mapGet context.dependencyManagement (groupId ++ ":" ++ artifactId) with
    | some managed =>
        if version0 == "" && managed.version != "" then managed.version else version0
    | none => version0
  (groupId, artifactId, version)

/-- The direct-dependency loop of `parsePom` (lines 94-152): an entry whose
resolved group, artifact or version is missing is silently skipped; kept
entries get depth 0. -/
def buildDirectDependencies (fuel : Nat) (deps : List RawDep) (project : RawProject)
    (context : PomContext) : List MavenDependency :=
  match deps with
  | [] => []
  | dep :: rest =>
    let r := resolveDepEntry fuel dep project context
    if r.1 != "" && r.2.1 != "" && r.2.2 != "" then
      { groupId := r.1, artifactId := r.2.1, version := r.2.2,
        scope := some (optJsOr dep.scope "compile"),
        optional := dep.optional,
        classifier := dep.classifier,
        exclusions := resolveExclusions dep.exclusions,
        depth := some 0 } :: buildDirectDependencies fuel rest project context
    else buildDirectDependencies fuel rest project context

/-- The dependency-collection loop of `resolveTransitiveDependencies`
(lines 597-658): like the direct loop but with the caller's exclusions merged
in, depth `depth + 1`, and a final exclusion check on the built coordinate. -/
def buildTransitiveDeps (fuel : Nat) (deps : List RawDep) (depProject : RawProject)
    (mergedContext : PomContext) (parentExclusions : List (String × String))
    (depth : Nat) : List MavenDependency :=
  match deps with
  | [] => []
  | dep :: rest =>
    let mergedExclusions := parentExclusions ++ resolveExclusions dep.exclusions
    let r := resolveDepEntry fuel dep depProject mergedContext
    if r.1 != "" && r.2.1 != "" && r.2.2 != "" then
      let transitiveDep : MavenDependency :=
        { groupId := r.1, artifactId := r.2.1, version := r.2.2,
          scope := some (optJsOr dep.scope "compile"),
          optional := dep.optional,
          classifier := dep.classifier,
          exclusions := mergedExclusions,
          depth := some (depth + 1) }
      if !(isExcluded transitiveDep mergedExclusions) then
        transitiveDep :: buildTransitiveDeps fuel rest depProject mergedContext parentExclusions depth
      else buildTransitiveDeps fuel rest depProject mergedContext parentExclusions depth
    else buildTransitiveDeps fuel rest depProject mergedContext parentExclusions depth

/-- `MavenParser.filterByScope` (lines 481-486). -/
def filterByScope (dependencies : List MavenDependency) (scopes : List String) : List MavenDependency :=
  dependencies.filter (fun dep => scopes.contains (optJsOr dep.scope "compile"))

/-- `Map.prototype.set` keyed by `depKey` (value carries its own key). -/
def mapSetDep : List MavenDependency → MavenDependency → List MavenDependency
  | [], dep => [dep]
  | e :: rest, dep =>
    if depKey e == depKey dep then dep :: rest else e :: mapSetDep rest dep

/-- One iteration of the `resolveVersionConflict` loop (lines 494-513):
insert an unseen key, replace on strictly smaller depth, else keep. -/
def mediationStep (m : List MavenDependency) (dep : MavenDependency) : List MavenDependency :=
  match m.find? (fun e => depKey e == depKey dep) with
  | none => m ++ [dep]
  | some existing => if depDepth dep < depDepth existing then mapSetDep m dep else m

/-- `MavenParser.resolveVersionConflict` (lines 491-516): Maven's
nearest-definition rule over an insertion-ordered map. -/
def resolveVersionConflict (dependencies : List MavenDependency) : List MavenDependency :=
  dependencies.foldl mediationStep []

/-- Oracle view of the repository filesystem as `mavenParser.ts` uses it:
`locate g a v` is `locatePomInRepository` + `parsePomFile` (a missing file or
a parse failure both yield `none`, which the source treats identically);
`parentContextOf` is `parseParentPom` (its own filesystem recursion included,
`none` when no parent is resolvable); `parseFileAt` is `parsePomFile` on an
explicit path. -/
structure MavenRepo where
  locate : String → String → String → Option RawProject
  parentContextOf : RawProject → Option PomContext
  parseFileAt : String → Option RawProject

/-- `MavenParser.locatePomInRepository` (lines 277-299) composed with
`parsePomFile`: `none` when a coordinate field is missing or the descriptor
is absent/unparsable. -/
def locatePomInRepository (repo : MavenRepo) (dep : MavenDependency) : Option RawProject :=
  if dep.groupId == "" || dep.artifactId == "" || dep.version == "" then none
  else repo.locate dep.groupId dep.artifactId dep.version

/-- `MavenParser.resolveTransitiveDependencies` (lines 536-690).  The
source's shared mutable `visited` set is add/delete balanced around every
call (every `visited.add(depKey)` at line 665 is undone by the
`visited.delete(depKey)` at line 687, and the early returns happen before
the add), so during the sibling loop the set always equals the ancestor path
plus the current coordinate: it is modelled as the explicit list `visited`,
extended per branch.  Recursion is bounded because depth rises by 1 per hop
and resolution stops at `maxDepth`. -/
def resolveTransitiveF (repo : MavenRepo) (fuel : Nat) :
    Nat → MavenDependency → PomContext → List String → Nat → Nat →
      List (String × String) → List MavenDependency
  | 0, _, _, _, _, _, _ => []
  | gas + 1, dependency, context, visited, depth, maxDepth, parentExclusions =>
    if maxDepth ≤ depth then []
    else if visited.contains (depKey dependency) then []
    else if dependency.optional then []
    else if isExcluded dependency parentExclusions then []
    else
      match locatePomInRepository repo dependency with
      | none => []
      | some depProject =>
        let depParentContext := repo.parentContextOf depProject
        let mergedContext : PomContext :=
          { properties := mapFromEntries (context.properties ++
              (match depParentContext with | some c => c.properties | none => [])),
            dependencyManagement := mapFromEntries (context.dependencyManagement ++
              (match depParentContext with | some c => c.dependencyManagement | none => [])),
            parent := none }
        let transitiveDeps := buildTransitiveDeps fuel depProject.dependencies depProject
          mergedContext parentExclusions depth
        let visited' := depKey dependency :: visited
        transitiveDeps ++ transitiveDeps.flatMap (fun transitiveDep =>
          if visited'.contains (depKey transitiveDep) then []
          else resolveTransitiveF repo fuel gas transitiveDep mergedContext
            visited' (depth + 1) maxDepth transitiveDep.exclusions)

/-- The `gas` budget `maxDepth + 1 - depth` bounds the recursion depth
exactly: the body recurses only when `depth < maxDepth` and each hop raises
`depth` by one, so the budget at `depth + 1` is again
`maxDepth + 1 - (depth + 1)` — see `resolveTransitiveDependencies_eq`,
which recovers the source's recursion verbatim. -/
def resolveTransitiveDependencies (repo : MavenRepo) (fuel : Nat)
    (dependency : MavenDependency) (context : PomContext) (visited : List String)
    (depth maxDepth : Nat) (parentExclusions : List (String × String)) :
    List MavenDependency :=
  resolveTransitiveF repo fuel (maxDepth + 1 - depth) dependency context visited
    depth maxDepth parentExclusions

/-- `ParseOptions` of `parsePom`. -/
structure ParseOptions where
  includeTransitive : Option Bool := none
  scopes : Option (List String) := none
  maxDepth : Option Nat := none
deriving DecidableEq, Repr

/-- `MavenParser.parsePom` (lines 54-190), caching elided (the model is
pure): the missing-path guard, option defaulting (note `maxDepth || 10`
turns an explicit 0 into 10), descriptor parsing, context construction,
the direct-dependency loop, transitive resolution for each non-optional
direct dependency (the shared `visited` set is empty at each top-level call
by the add/delete balance), conflict mediation, and scope filtering. -/
def parsePom (repo : MavenRepo) (fuel : Nat) (pomPath : Option String)
    (options : ParseOptions) : Except String (List MavenDependency) :=
  if !(optStrTruthy pomPath) then Except.error "pomPath is required"
  else
    let actualPomPath := pomPath.getD ""
    let includeTransitive := options.includeTransitive != some false
    let scopes := options.scopes.getD ["compile", "runtime"]
    let maxDepth :=
      match options.maxDepth with
      | none => 10
      | some 0 => 10
      | some n => n
    match repo.parseFileAt actualPomPath with
    | none => Except.error ("Failed to parse pom.xml at " ++ actualPomPath)
    | some project =>
      let parentContext := repo.parentContextOf project
      let properties := extractProperties fuel project parentContext
      let dependencyManagement := extractDependencyManagement fuel project parentContext
      let context : PomContext :=
        { properties := properties, dependencyManagement := dependencyManagement,
          parent := parentContext.bind (fun c => c.parent) }
      let directDependencies := buildDirectDependencies fuel project.dependencies project context
      let allDependencies :=
        if includeTransitive then
          directDependencies ++ (directDependencies.filter (fun d => !d.optional)).flatMap
            (fun d => resolveTransitiveDependencies repo fuel d context [] 0 maxDepth d.exclusions)
        else directDependencies
      Except.ok (filterByScope (resolveVersionConflict allDependencies) scopes)

/-- Result content of one MCP tool call (first content item + error flag). -/
structure ToolResponse where
  text : String
  isError : Bool := false
deriving DecidableEq, Repr

/-- The missing-argument guard of `MCPServerTools.findClassDefinition`
(part_001 lines 25-38); `rest` abstracts the remainder of the handler
(cache lookup, parsing, archive scanning), which performs I/O. -/
def findClassDefinition (pomPath : Option String) (rest : ToolResponse) : ToolResponse :=
  if !(optStrTruthy pomPath) then
    { text := "pomPath is required for find_class_definition", isError := true }
  else rest

/-- The missing-argument guard of `MCPServerTools.listProjectDependencies`
(part_001 lines 136-149); `rest` abstracts the remainder of the handler. -/
def listProjectDependencies (pomPath : Option String) (rest : ToolResponse) : ToolResponse :=
  if !(optStrTruthy pomPath) then
    { text := "pomPath is required for list_project_dependencies", isError := true }
  else rest

/-- The selection property of Maven's nearest-definition rule: `d` occurs in
`deps`, every earlier same-key coordinate is strictly deeper, and every later
same-key coordinate is at least as deep. -/
def nearestKept (deps : List MavenDependency) (d : MavenDependency) : Prop :=
  ∃ l1 l2, deps = l1 ++ d :: l2
    ∧ (∀ e ∈ l1, depKey e = depKey d → depDepth d < depDepth e)
    ∧ (∀ e ∈ l2, depKey e = depKey d → depDepth d ≤ depDepth e)

/-- Invariant of the mediation fold: `p` is the processed prefix, `m` the map. -/
def MediationInv (p m : List MavenDependency) : Prop :=
  ((m.map depKey).Nodup)
  ∧ (∀ d ∈ m, nearestKept p d)
  ∧ (∀ d ∈ p, ∃ e ∈ m, depKey e = depKey d)

def jarFSExample : JarFS :=
  { fileExists := fun p => p == "repo/g/a/1/a-1.jar" || p == "repo/g/b/1/b-1.jar",
    entries := fun p =>
      if p == "repo/g/a/1/a-1.jar" then none
      else if p == "repo/g/b/1/b-1.jar" then some ["x/Y.class"] else none }

def depJarA : MavenDependency := { groupId := "g", artifactId := "a", version := "1" }

def depJarB : MavenDependency := { groupId := "g", artifactId := "b", version := "1" }

def depMedNear : MavenDependency :=
  { groupId := "g", artifactId := "x", version := "2", depth := some 1 }

def depMedFar : MavenDependency :=
  { groupId := "g", artifactId := "x", version := "1", depth := some 0 }

def pomRepoExample : MavenRepo :=
  { locate := fun _ _ _ => none,
    parentContextOf := fun _ => none,
    parseFileAt := fun _ => some
      { dependencies := [{ groupId := "g", artifactId := "a", version := "1" },
                         { groupId := "g2", artifactId := "a2" }] } }

def depResolved : MavenDependency :=
  { groupId := "g", artifactId := "a", version := "1", scope := some "compile",
    optional := false, classifier := none, exclusions := [], depth := some 0 }

def mkExDep (a : String) (n : Nat) : MavenDependency :=
  { groupId := "g", artifactId := a, version := "1", scope := some "compile", depth := some n }

def rawTo (a : String) : RawDep := { groupId := "g", artifactId := a, version := "1" }

def projCycleA : RawProject := { dependencies := [rawTo "b"] }

def projCycleB : RawProject := { dependencies := [rawTo "a"] }

def cycleRepo : MavenRepo :=
  { locate := fun g a _ =>
      if g == "g" && a == "a" then some projCycleA
      else if g == "g" && a == "b" then some projCycleB
      else none,
    parentContextOf := fun _ => none,
    parseFileAt := fun _ => none }

def depCycleA : MavenDependency := { groupId := "g", artifactId := "a", version := "1" }

def projSibP : RawProject := { dependencies := [rawTo "a", rawTo "b"] }

def projSibA : RawProject := { dependencies := [rawTo "c"] }

def projSibB : RawProject := { dependencies := [rawTo "c"] }

def projSibC : RawProject := { dependencies := [rawTo "d"] }

def projSibD : RawProject := { dependencies := [] }

def siblingRepo : MavenRepo :=
  { locate := fun g a _ =>
      if g == "g" && a == "p" then some projSibP
      else if g == "g" && a == "a" then some projSibA
      else if g == "g" && a == "b" then some projSibB
      else if g == "g" && a == "c" then some projSibC
      else if g == "g" && a == "d" then some projSibD
      else none,
    parentContextOf := fun _ => none,
    parseFileAt := fun _ => none }

def depSibP : MavenDependency := { groupId := "g", artifactId := "p", version := "1" }

theorem parseTypeFrom_consumed_pos (u : List Char) (hu : u ≠ []) :
    1 ≤ (parseTypeFrom u).2 := by
  match u with
  | c :: rest =>
    show 1 ≤ (parseTypeFrom (c :: rest)).2
    unfold parseTypeFrom
    repeat' split
    all_goals simp

theorem parseTypeDescriptor_progress (s : List Char) (i : Nat) (h : i < s.length) :
    i < (parseTypeDescriptor s i).2 := by
  have hne : s.drop i ≠ [] := by
    intro hcon
    have := congrArg List.length hcon
    simp at this
    omega
  have := parseTypeFrom_consumed_pos (s.drop i) hne
  unfold parseTypeDescriptor
  omega

theorem parseParamsF_congr :
    ∀ (n : Nat) (s : List Char) (i f1 f2 : Nat), s.length - i < n →
      s.length - i < f1 → s.length - i < f2 →
      parseParamsF f1 s i = parseParamsF f2 s i := by
  intro n
  induction n with
  | zero => intro s i f1 f2 h; omega
  | succ m ih =>
    intro s i f1 f2 hn h1 h2
    match f1, f2 with
    | a + 1, b + 1 =>
      rw [parseParamsF, parseParamsF]
      by_cases hlen : i < s.length
      · rw [if_pos hlen, if_pos hlen]
        have hprog := parseTypeDescriptor_progress s i hlen
        have := ih s (parseTypeDescriptor s i).2 a b (by omega) (by omega) (by omega)
        rw [this]
      · rw [if_neg hlen, if_neg hlen]
    | 0, b => omega
    | a + 1, 0 => omega

/-- The loop equation the source's `while (i < paramDescriptors.length)`
satisfies: consume one descriptor and continue at `nextIndex`. -/
theorem parseParams_eq (s : List Char) (i : Nat) :
    parseParams s i =
      if i < s.length then
        (parseTypeDescriptor s i).1 :: parseParams s (parseTypeDescriptor s i).2
      else [] := by
  unfold parseParams
  rw [parseParamsF]
  by_cases hlen : i < s.length
  · rw [if_pos hlen, if_pos hlen]
    have hprog := parseTypeDescriptor_progress s i hlen
    rw [parseParamsF_congr (s.length + 1) s (parseTypeDescriptor s i).2 s.length
      (s.length + 1) (by omega) (by omega) (by omega)]
  · rw [if_neg hlen, if_neg hlen]

/-- The recursion equation of `MavenParser.resolveTransitiveDependencies`
(lines 536-690), satisfied by the total model: guards first (depth bound,
ancestor-path cycle check, optional skip, exclusion check, descriptor
lookup), then the child-collection loop followed by recursive resolution of
each not-yet-visited child one level deeper. -/
theorem resolveTransitiveDependencies_eq (repo : MavenRepo) (fuel : Nat)
    (dependency : MavenDependency) (context : PomContext) (visited : List String)
    (depth maxDepth : Nat) (parentExclusions : List (String × String)) :
    resolveTransitiveDependencies repo fuel dependency context visited depth maxDepth
        parentExclusions =
      if maxDepth ≤ depth then []
      else if visited.contains (depKey dependency) then []
      else if dependency.optional then []
      else if isExcluded dependency parentExclusions then []
      else
        match locatePomInRepository repo dependency with
        | none => []
        | some depProject =>
          let depParentContext := repo.parentContextOf depProject
          let mergedContext : PomContext :=
            { properties := mapFromEntries (context.properties ++
                (match depParentContext with | some c => c.properties | none => [])),
              dependencyManagement := mapFromEntries (context.dependencyManagement ++
                (match depParentContext with | some c => c.dependencyManagement | none => [])),
              parent := none }
          let transitiveDeps := buildTransitiveDeps fuel depProject.dependencies depProject
            mergedContext parentExclusions depth
          let visited' := depKey dependency :: visited
          transitiveDeps ++ transitiveDeps.flatMap (fun transitiveDep =>
            if visited'.contains (depKey transitiveDep) then []
            else resolveTransitiveDependencies repo fuel transitiveDep mergedContext
              visited' (depth + 1) maxDepth transitiveDep.exclusions) := by
  unfold resolveTransitiveDependencies
  by_cases hd : maxDepth ≤ depth
  · rw [if_pos hd]
    match hgas : maxDepth + 1 - depth with
    | 0 => rw [resolveTransitiveF]
    | g + 1 =>
      rw [resolveTransitiveF]
      rw [if_pos hd]
  · rw [if_neg hd]
    have hgas : maxDepth + 1 - depth = (maxDepth - depth) + 1 := by omega
    have hgas' : maxDepth + 1 - (depth + 1) = maxDepth - depth := by omega
    rw [hgas, resolveTransitiveF, if_neg hd, hgas']

theorem parseTypeFrom_L (rest : List Char) :
    parseTypeFrom ('L' :: rest) =
      (match indexOfFrom ('L' :: rest) ';' 0 with
        | none => ("Object", 1)
        | some k => (String.mk (slashesToDots (rest.take (k - 1))), k + 1)) := rfl

theorem parseTypeFrom_default (c : Char) (rest : List Char)
    (hnot : c ∉ ['B', 'C', 'D', 'F', 'I', 'J', 'S', 'Z', 'V', 'L', '[']) :
    parseTypeFrom (c :: rest) = ("Object", 1) := by
  unfold parseTypeFrom
  split <;> simp_all

theorem accessFlagsCore_eq :
    ∀ (b0 b1 b2 b3 b4 b5 b8 b10 b11 : Bool),
      accessFlagsCore b0 b1 b2 b3 b4 b5 b8 b10 b11 =
        (if b0 then "public" else if b1 then "private" else if b2 then "protected" else "public")
          :: ((if b3 then ["static"] else []) ++ (if b4 then ["final"] else [])
            ++ (if b5 then ["synchronized"] else []) ++ (if b8 then ["native"] else [])
            ++ (if b10 then ["abstract"] else []) ++ (if b11 then ["strictfp"] else [])) := by
  decide

/-- Claim C6: for every 16-bit access-flag word, `getAccessFlags` emits exactly
one visibility keyword chosen by the else-if chain preferring public over
private over protected and defaulting to public, placed first, followed by
the matched non-visibility modifiers in the fixed order static, final,
synchronized, native, abstract, strictfp. -/
theorem claim_C6 (flags : Nat) (hword : flags < 65536) :
    getAccessFlags flags = visibilityKeyword flags :: orderedOtherModifiers flags := by
  unfold getAccessFlags visibilityKeyword orderedOtherModifiers
  exact accessFlagsCore_eq _ _ _ _ _ _ _ _ _

theorem indexOfFrom_rel (s : List Char) (c : Char) (i : Nat) :
    indexOfFrom (s.drop i) c 0 = none ↔ indexOfFrom s c i = none := by
  unfold indexOfFrom
  rw [List.drop_zero]
  cases (s.drop i).findIdx? (· == c) <;> simp

/-- Claim C10: `parseTypeDescriptor` is total — an index at or past the end
yields void without advancing, an unrecognized leading character yields
Object, an `L` with no terminating semicolon yields Object; whenever the
start index is within the string the returned next index strictly exceeds
it, so the parameter-consuming loop of `parseMethodDescriptor` satisfies its
defining equation as a total function on every descriptor string. -/
theorem claim_C10 :
    (∀ (s : List Char) (i : Nat), s.length ≤ i → parseTypeDescriptor s i = ("void", i))
    ∧ (∀ (s : List Char) (i : Nat) (h : i < s.length),
        s.get ⟨i, h⟩ ∉ ['B', 'C', 'D', 'F', 'I', 'J', 'S', 'Z', 'V', 'L', '['] →
        parseTypeDescriptor s i = ("Object", i + 1))
    ∧ (∀ (s : List Char) (i : Nat) (h : i < s.length),
        s.get ⟨i, h⟩ = 'L' → indexOfFrom s ';' i = none →
        parseTypeDescriptor s i = ("Object", i + 1))
    ∧ (∀ (s : List Char) (i : Nat), i < s.length → i < (parseTypeDescriptor s i).2)
    ∧ (∀ (s : List Char) (i : Nat),
        parseParams s i =
          if i < s.length then
            (parseTypeDescriptor s i).1 :: parseParams s (parseTypeDescriptor s i).2
          else []) := by
  refine ⟨?_, ?_, ?_, parseTypeDescriptor_progress, parseParams_eq⟩
  · intro s i hle
    unfold parseTypeDescriptor
    rw [List.drop_eq_nil_iff.mpr hle]
    rfl
  · intro s i h hnot
    unfold parseTypeDescriptor
    rw [List.drop_eq_getElem_cons h]
    rw [parseTypeFrom_default s[i] (s.drop (i + 1)) (by simpa using hnot)]
  · intro s i h hL hnone
    unfold parseTypeDescriptor
    rw [List.drop_eq_getElem_cons h]
    have hLi : s[i] = 'L' := by simpa using hL
    rw [hLi, parseTypeFrom_L]
    have : indexOfFrom ('L' :: s.drop (i + 1)) ';' 0 = none := by
      have hd : s.drop i = 'L' :: s.drop (i + 1) := by
        rw [List.drop_eq_getElem_cons h, hLi]
      rw [← hd]
      exact (indexOfFrom_rel s ';' i).mpr hnone
    rw [this]

/-- Witness for C10 at the concrete inputs "I" past the end, "Q" (bad
character), "Lfoo" (unterminated object type) and "[[Z" (progress). -/
theorem claim_C10_witness :
    parseTypeDescriptor "I".data 3 = ("void", 3)
    ∧ parseTypeDescriptor "Q".data 0 = ("Object", 1)
    ∧ parseTypeDescriptor "Lfoo".data 0 = ("Object", 1)
    ∧ 0 < (parseTypeDescriptor "[[Z".data 0).2 :=
  ⟨claim_C10.1 _ 3 (by decide), claim_C10.2.1 _ 0 (by decide) (by decide),
    claim_C10.2.2.1 _ 0 (by decide) (by decide) (by decide),
    claim_C10.2.2.2.1 _ 0 (by decide)⟩

/-- Claim C4: parsing the method descriptor "(Ljava/lang/String;I)V" yields
exactly the parameters ["java.lang.String", "int"] and return type "void";
in general the parameter list is obtained by repeatedly consuming one type
descriptor from the parenthesized segment (the loop equation), primitives
decode by single letter, `L...;` converts to dotted form, and `[` renders
as elementType[]. -/
theorem claim_C4 :
    parseMethodDescriptor "(Ljava/lang/String;I)V" =
      { returnType := "void", parameters := ["java.lang.String", "int"] }
    ∧ (∀ (s : List Char) (i : Nat),
        parseParams s i =
          if i < s.length then
            (parseTypeDescriptor s i).1 :: parseParams s (parseTypeDescriptor s i).2
          else [])
    ∧ parseTypeDescriptor "I".data 0 = ("int", 1)
    ∧ parseTypeDescriptor "Ljava/lang/String;".data 0 = ("java.lang.String", 18)
    ∧ parseTypeDescriptor "[J".data 0 = ("long[]", 2) :=
  ⟨by decide, parseParams_eq, by decide, by decide, by decide⟩

theorem listSuffixes_mem_self (s : List Char) : s ∈ listSuffixes s := by
  cases s <;> simp [listSuffixes]

theorem matchHere_anySeq_only (s : List Char) : matchHere [GlobTok.anySeq] s = true := by
  unfold matchHere
  rw [List.any_eq_true]
  exact ⟨s, listSuffixes_mem_self s, rfl⟩

theorem regexTest_anySeq (s : List Char) : regexTest [GlobTok.anySeq] s = true := by
  unfold regexTest
  rw [List.any_eq_true]
  exact ⟨s, listSuffixes_mem_self s, matchHere_anySeq_only s⟩

/-- Counterexample to C5 as stated: the source compiles the glob into an
**unanchored** regular expression and uses `test`, so pattern `com.foo.?ar`
does match the class `com.foo.Bard` (via its substring `com.foo.Bar`) and
the entry is returned, contradicting the claimed anchored semantics. -/
theorem counterexample_C5 :
    searchClassesInJar ["com/foo/Bard.class"] "com.foo.?ar" = ["com.foo.Bard"] := by decide

/-- Claim C5 (amended): `searchClassesInJar` translates the glob (`*` any
sequence, `?` any single character, and a literal `.` also matching any
character) into an **unanchored** substring match over the dotted class
names of the `.class` entries: pattern `*` returns every `.class` entry, and
pattern `com.foo.?ar` matches `com.foo.Bar` and `com.foo.Car` — and also
`com.foo.Bard`, because the match is not anchored. -/
theorem claim_C5 :
    (∀ entries : List String, searchClassesInJar entries "*" = allClassNames entries)
    ∧ searchClassesInJar ["com/foo/Bar.class", "com/foo/Car.class", "com/foo/Bard.class",
        "com/x/Y.class", "META-INF/MANIFEST.MF"] "com.foo.?ar" =
        ["com.foo.Bar", "com.foo.Car", "com.foo.Bard"] := by
  constructor
  · intro entries
    unfold searchClassesInJar allClassNames
    have htoks : globToRegex "*".data = [GlobTok.anySeq] := by decide
    rw [htoks]
    simp [regexTest_anySeq]
  · decide

/-- Claim C9: calling dependency resolution without the required descriptor
path — `parsePom` with no `pomPath`, or the find_class_definition and
list_project_dependencies tools without `pomPath` — signals a
missing-argument error immediately whose message mentions `pomPath`, and
never returns a normal result (the tool responses carry `isError = true`,
`parsePom` returns `Except.error`). -/
theorem claim_C9 :
    (∀ (repo : MavenRepo) (fuel : Nat) (options : ParseOptions),
        parsePom repo fuel none options = Except.error "pomPath is required")
    ∧ strContainsSubstr "pomPath is required" "pomPath" = true
    ∧ (∀ rest : ToolResponse,
        findClassDefinition none rest =
          { text := "pomPath is required for find_class_definition", isError := true })
    ∧ (∀ rest : ToolResponse, (findClassDefinition none rest).isError = true)
    ∧ strContainsSubstr "pomPath is required for find_class_definition" "pomPath" = true
    ∧ (∀ rest : ToolResponse,
        listProjectDependencies none rest =
          { text := "pomPath is required for list_project_dependencies", isError := true })
    ∧ (∀ rest : ToolResponse, (listProjectDependencies none rest).isError = true)
    ∧ strContainsSubstr "pomPath is required for list_project_dependencies" "pomPath" = true :=
  ⟨fun _ _ _ => rfl, by decide, fun _ => rfl, fun _ => rfl, by decide,
    fun _ => rfl, fun _ => rfl, by decide⟩

/-- Witness for C6 at the concrete flag word 0x0019 (public static final). -/
theorem claim_C6_witness :
    (0x0019 : Nat) < 65536
    ∧ getAccessFlags 0x0019 = visibilityKeyword 0x0019 :: orderedOtherModifiers 0x0019 :=
  ⟨by decide, claim_C6 0x0019 (by decide)⟩

/-- Claim C8: `findJarForClass` returns the first coordinate in input order
whose located archive contains the class (every earlier candidate either
fails to locate or does not contain it), returns `none` — not an exception —
when no candidate contains it, and treats an unreadable archive exactly as
the class not being found there, so scanning continues. -/
theorem claim_C8 (fs : JarFS) (mavenRepoPath className : String) :
    ∀ deps : List MavenDependency,
      (∀ jarPath dep, findJarForClass fs mavenRepoPath className deps = some (jarPath, dep) →
        ∃ l1 l2, deps = l1 ++ dep :: l2
          ∧ locateJar fs mavenRepoPath dep = some jarPath
          ∧ classExistsInJar fs jarPath (classPathOf className) = true
          ∧ ∀ e ∈ l1, ∀ j, locateJar fs mavenRepoPath e = some j →
              classExistsInJar fs j (classPathOf className) = false)
      ∧ ((∀ d ∈ deps, ∀ j, locateJar fs mavenRepoPath d = some j →
            classExistsInJar fs j (classPathOf className) = false) →
          findJarForClass fs mavenRepoPath className deps = none)
      ∧ (∀ jarPath, fs.entries jarPath = none →
          classExistsInJar fs jarPath (classPathOf className) = false) := by
  intro deps
  refine ⟨?_, ?_, ?_⟩
  · induction deps with
    | nil => intro jarPath dep h; cases h
    | cons d rest ih =>
      intro jarPath dep h
      cases hloc : locateJar fs mavenRepoPath d with
      | none =>
        simp only [findJarForClass, hloc] at h
        obtain ⟨l1, l2, hsplit, hl, hc, hprev⟩ := ih jarPath dep h
        refine ⟨d :: l1, l2, by rw [hsplit]; rfl, hl, hc, ?_⟩
        intro e he j hj
        rcases List.mem_cons.mp he with rfl | he'
        · rw [hloc] at hj; cases hj
        · exact hprev e he' j hj
      | some j =>
        simp only [findJarForClass, hloc] at h
        by_cases hex : classExistsInJar fs j (classPathOf className) = true
        · rw [if_pos hex] at h
          injection h with h'
          injection h' with h1 h2
          subst h1; subst h2
          exact ⟨[], rest, rfl, hloc, hex, by intro e he; cases he⟩
        · rw [if_neg hex] at h
          obtain ⟨l1, l2, hsplit, hl, hc, hprev⟩ := ih jarPath dep h
          refine ⟨d :: l1, l2, by rw [hsplit]; rfl, hl, hc, ?_⟩
          intro e he j' hj'
          rcases List.mem_cons.mp he with rfl | he'
          · rw [hloc] at hj'
            injection hj' with hjj
            subst hjj
            simpa using hex
          · exact hprev e he' j' hj'
  · induction deps with
    | nil => intro _; rfl
    | cons d rest ih =>
      intro hall
      cases hloc : locateJar fs mavenRepoPath d with
      | none =>
        simp only [findJarForClass, hloc]
        exact ih (fun e he => hall e (List.mem_cons_of_mem d he))
      | some j =>
        have hfalse := hall d (List.mem_cons_self d rest) j hloc
        simp only [findJarForClass, hloc]
        rw [if_neg (by simp [hfalse])]
        exact ih (fun e he => hall e (List.mem_cons_of_mem d he))
  · intro jarPath h
    unfold classExistsInJar
    rw [h]

/-- Witness for C8: two candidates, the first with an unreadable archive, the
second containing the class; the scan skips the first and returns the
second. -/
theorem claim_C8_witness :
    ∃ l1 l2, [depJarA, depJarB] = l1 ++ depJarB :: l2
      ∧ locateJar jarFSExample "repo" depJarB = some "repo/g/b/1/b-1.jar"
      ∧ classExistsInJar jarFSExample "repo/g/b/1/b-1.jar" (classPathOf "x.Y") = true
      ∧ ∀ e ∈ l1, ∀ j, locateJar jarFSExample "repo" e = some j →
          classExistsInJar jarFSExample j (classPathOf "x.Y") = false :=
  (claim_C8 jarFSExample "repo" "x.Y" [depJarA, depJarB]).1 "repo/g/b/1/b-1.jar" depJarB
    (by decide)

theorem mapGet_mapSet_self {α : Type} (m : List (String × α)) (k : String) (v : α) :
    mapGet (mapSet m k v) k = some v := by
  induction m with
  | nil => simp [mapSet, mapGet]
  | cons kv rest ih =>
    obtain ⟨k', v'⟩ := kv
    by_cases h : k' == k
    · rw [mapSet, if_pos h, mapGet, if_pos (by simp)]
    · rw [mapSet, if_neg h, mapGet, if_neg h]
      exact ih

theorem mapGet_mapSet_ne {α : Type} (m : List (String × α)) (k k' : String) (v : α)
    (hne : k' ≠ k) : mapGet (mapSet m k v) k' = mapGet m k' := by
  have hne' : ¬(k == k') = true := by simp [Ne.symm hne]
  induction m with
  | nil => simp [mapSet, mapGet, hne']
  | cons kv rest ih =>
    obtain ⟨k0, v0⟩ := kv
    by_cases h : (k0 == k) = true
    · rw [mapSet, if_pos h, mapGet, if_neg hne', mapGet, if_neg (by simp_all)]
    · rw [mapSet, if_neg h, mapGet, mapGet]
      by_cases h2 : (k0 == k') = true
      · rw [if_pos h2, if_pos h2]
      · rw [if_neg h2, if_neg h2]
        exact ih

theorem mapGet_foldl_not_mem {α : Type} (g : String × String → α) :
    ∀ (l : List (String × String)) (m0 : List (String × α)) (k : String),
      k ∉ l.map Prod.fst →
      mapGet (l.foldl (fun m kv => mapSet m kv.1 (g kv)) m0) k = mapGet m0 k := by
  intro l
  induction l with
  | nil => intro m0 k _; rfl
  | cons kv rest ih =>
    intro m0 k hk
    simp only [List.map_cons, List.mem_cons] at hk
    push_neg at hk
    rw [List.foldl_cons, ih _ k hk.2]
    exact mapGet_mapSet_ne m0 kv.1 k (g kv) hk.1

theorem mapGet_foldl_mem {α : Type} (g : String × String → α) :
    ∀ (l : List (String × String)) (m0 : List (String × α)) (k v : String),
      (l.map Prod.fst).Nodup → (k, v) ∈ l →
      mapGet (l.foldl (fun m kv => mapSet m kv.1 (g kv)) m0) k = some (g (k, v)) := by
  intro l
  induction l with
  | nil => intro m0 k v _ hmem; cases hmem
  | cons kv rest ih =>
    intro m0 k v hnd hmem
    simp only [List.map_cons, List.nodup_cons] at hnd
    rcases List.mem_cons.mp hmem with rfl | hmem'
    · rw [List.foldl_cons, mapGet_foldl_not_mem g rest _ k hnd.1, mapGet_mapSet_self]
    · rw [List.foldl_cons]
      exact ih _ k v hnd.2 hmem'

/-- Claim C3: the merged property table seeds the ancestor entries first and
layers the descendant entries on top — a property declared only in the
ancestor context keeps the ancestor value, and a property declared in the
descendant maps to the (resolved) descendant value, which is the literal
descendant value whenever it contains no placeholder. -/
theorem claim_C3 (fuel : Nat) (project : RawProject) (ctx : PomContext) (k v : String) :
    ((ctx.properties.map Prod.fst).Nodup → (k, v) ∈ ctx.properties →
      k ∉ project.properties.map Prod.fst →
      mapGet (extractProperties fuel project (some ctx)) k = some v)
    ∧ ((project.properties.map Prod.fst).Nodup → (k, v) ∈ project.properties →
      mapGet (extractProperties fuel project (some ctx)) k =
        some (resolveProperty fuel v project (some ctx)))
    ∧ ((project.properties.map Prod.fst).Nodup → (k, v) ∈ project.properties →
      strContainsSubstr v placeholderMark = false →
      mapGet (extractProperties fuel project (some ctx)) k = some v) := by
  have hres : ∀ w : String, strContainsSubstr w placeholderMark = false →
      resolveProperty fuel w project (some ctx) = w := by
    intro w hw
    unfold resolveProperty
    by_cases hempty : w == ""
    · rw [if_pos hempty]
      simpa using (beq_iff_eq.mp hempty).symm
    · rw [if_neg hempty, if_pos (by simp [hw])]
  refine ⟨?_, ?_, ?_⟩
  · intro hnd hmem hnot
    unfold extractProperties
    rw [mapGet_foldl_not_mem _ _ _ _ hnot]
    exact mapGet_foldl_mem (fun kv => kv.2) ctx.properties [] k v hnd hmem
  · intro hnd hmem
    unfold extractProperties
    exact mapGet_foldl_mem _ project.properties _ k v hnd hmem
  · intro hnd hmem hv
    unfold extractProperties
    rw [mapGet_foldl_mem _ project.properties _ k v hnd hmem]
    rw [hres v hv]

/-- Witness for C3 on concrete one-entry tables. -/
theorem claim_C3_witness :
    mapGet (extractProperties 5
      { properties := [("b", "2")] }
      (some { properties := [("a", "1")] })) "a" = some "1"
    ∧ mapGet (extractProperties 5
      { properties := [("b", "2")] }
      (some { properties := [("a", "1"), ("b", "0")] })) "b" = some "2" :=
  ⟨(claim_C3 5 { properties := [("b", "2")] } { properties := [("a", "1")] } "a" "1").1
      (by decide) (by decide) (by decide),
    (claim_C3 5 { properties := [("b", "2")] } { properties := [("a", "1"), ("b", "0")] }
      "b" "2").2.2 (by decide) (by decide) (by decide)⟩

theorem mapSetDep_map_key (m : List MavenDependency) (dep existing : MavenDependency)
    (hmem : existing ∈ m) (hkey : depKey existing = depKey dep) :
    (mapSetDep m dep).map depKey = m.map depKey := by
  induction m with
  | nil => cases hmem
  | cons e rest ih =>
    by_cases h : (depKey e == depKey dep) = true
    · rw [mapSetDep, if_pos h]
      simp only [List.map_cons]
      rw [beq_iff_eq.mp h]
    · rw [mapSetDep, if_neg h]
      simp only [List.map_cons]
      rcases List.mem_cons.mp hmem with rfl | hmem'
      · exact absurd (by simp [hkey]) h
      · rw [ih hmem']

theorem mapSetDep_mem (m : List MavenDependency) (dep : MavenDependency)
    (hnd : (m.map depKey).Nodup) :
    ∀ x ∈ mapSetDep m dep, x = dep ∨ (x ∈ m ∧ depKey x ≠ depKey dep) := by
  induction m with
  | nil =>
    intro x hx
    rw [mapSetDep] at hx
    rcases List.mem_singleton.mp hx with rfl
    exact Or.inl rfl
  | cons e rest ih =>
    intro x hx
    simp only [List.map_cons, List.nodup_cons] at hnd
    by_cases h : (depKey e == depKey dep) = true
    · rw [mapSetDep, if_pos h] at hx
      rcases List.mem_cons.mp hx with rfl | hx'
      · exact Or.inl rfl
      · right
        refine ⟨List.mem_cons_of_mem e hx', ?_⟩
        intro hxk
        exact hnd.1 (by rw [beq_iff_eq.mp h, ← hxk]; exact List.mem_map_of_mem depKey hx')
    · rw [mapSetDep, if_neg h] at hx
      rcases List.mem_cons.mp hx with rfl | hx'
      · exact Or.inr ⟨List.mem_cons_self _ _, by simpa using h⟩
      · rcases ih hnd.2 x hx' with rfl | ⟨hm, hk⟩
        · exact Or.inl rfl
        · exact Or.inr ⟨List.mem_cons_of_mem e hm, hk⟩

theorem mapSetDep_self_mem (m : List MavenDependency) (dep existing : MavenDependency)
    (hmem : existing ∈ m) (hkey : depKey existing = depKey dep) :
    dep ∈ mapSetDep m dep := by
  induction m with
  | nil => cases hmem
  | cons e rest ih =>
    by_cases h : (depKey e == depKey dep) = true
    · rw [mapSetDep, if_pos h]
      exact List.mem_cons_self _ _
    · rw [mapSetDep, if_neg h]
      rcases List.mem_cons.mp hmem with rfl | hmem'
      · exact absurd (by simp [hkey]) h
      · exact List.mem_cons_of_mem e (ih hmem')

theorem mapSetDep_mem_of_ne (m : List MavenDependency) (dep : MavenDependency) :
    ∀ x ∈ m, depKey x ≠ depKey dep → x ∈ mapSetDep m dep := by
  induction m with
  | nil => intro x hx; cases hx
  | cons e rest ih =>
    intro x hx hxk
    by_cases h : (depKey e == depKey dep) = true
    · rw [mapSetDep, if_pos h]
      rcases List.mem_cons.mp hx with rfl | hx'
      · exact absurd (beq_iff_eq.mp h) hxk
      · exact List.mem_cons_of_mem _ hx'
    · rw [mapSetDep, if_neg h]
      rcases List.mem_cons.mp hx with rfl | hx'
      · exact List.mem_cons_self _ _
      · exact List.mem_cons_of_mem _ (ih x hx' hxk)

theorem mediationStep_inv (p m : List MavenDependency) (dep : MavenDependency)
    (hinv : MediationInv p m) : MediationInv (p ++ [dep]) (mediationStep m dep) := by
  obtain ⟨hnd, hkept, hcov⟩ := hinv
  cases hf : m.find? (fun e => depKey e == depKey dep) with
  | none =>
    have hstep : mediationStep m dep = m ++ [dep] := by
      unfold mediationStep
      rw [hf]
    rw [hstep]
    have hnone : ∀ e ∈ m, depKey e ≠ depKey dep := by
      intro e he
      have := List.find?_eq_none.mp hf e he
      simpa using this
    refine ⟨?_, ?_, ?_⟩
    · rw [List.map_append]
      refine List.Nodup.append hnd (List.nodup_singleton _) ?_
      intro x hx hx'
      obtain ⟨e, he, rfl⟩ := List.mem_map.mp hx
      exact hnone e he (List.mem_singleton.mp hx')
    · intro d hd
      rcases List.mem_append.mp hd with hd' | hd'
      · obtain ⟨l1, l2, hp, hb, ha⟩ := hkept d hd'
        refine ⟨l1, l2 ++ [dep], by rw [hp]; simp, hb, ?_⟩
        intro e he hke
        rcases List.mem_append.mp he with he1 | he2
        · exact ha e he1 hke
        · have he3 : e = dep := List.mem_singleton.mp he2
          rw [he3] at hke
          exact absurd hke.symm (hnone d hd')
      · have hd'' : d = dep := List.mem_singleton.mp hd'
        refine ⟨p, [], by simp [hd''], ?_, by simp⟩
        intro e he hke
        obtain ⟨e', he', hk'⟩ := hcov e he
        rw [hd''] at hke
        exact absurd (hk'.trans hke) (hnone e' he')
    · intro d hd
      rcases List.mem_append.mp hd with hd' | hd'
      · obtain ⟨e, he, hk⟩ := hcov d hd'
        exact ⟨e, List.mem_append_left _ he, hk⟩
      · have hd'' : d = dep := List.mem_singleton.mp hd'
        exact ⟨dep, List.mem_append_right _ (List.mem_singleton_self _), by rw [hd'']⟩
  | some existing =>
    have hex_mem : existing ∈ m := List.mem_of_find?_eq_some hf
    have hex_key : depKey existing = depKey dep := by
      have := List.find?_some hf
      simpa using this
    have hstep : mediationStep m dep =
        if depDepth dep < depDepth existing then mapSetDep m dep else m := by
      unfold mediationStep
      rw [hf]
    rw [hstep]
    by_cases hlt : depDepth dep < depDepth existing
    · rw [if_pos hlt]
      obtain ⟨l1, l2, hp, hb, ha⟩ := hkept existing hex_mem
      refine ⟨?_, ?_, ?_⟩
      · rw [mapSetDep_map_key m dep existing hex_mem hex_key]
        exact hnd
      · intro x hx
        rcases mapSetDep_mem m dep hnd x hx with rfl | ⟨hm, hk⟩
        · refine ⟨p, [], by simp, ?_, by simp⟩
          intro e he hke
          rw [hp] at he
          rcases List.mem_append.mp he with he1 | he2
          · exact lt_trans hlt (hb e he1 (by rw [hke, ← hex_key]))
          · rcases List.mem_cons.mp he2 with he2' | he3
            · rw [he2']
              exact hlt
            · exact lt_of_lt_of_le hlt (ha e he3 (by rw [hke, ← hex_key]))
        · obtain ⟨l1', l2', hp', hb', ha'⟩ := hkept x hm
          refine ⟨l1', l2' ++ [dep], by rw [hp']; simp, hb', ?_⟩
          intro e he hke
          rcases List.mem_append.mp he with he1 | he2
          · exact ha' e he1 hke
          · have he3 : e = dep := List.mem_singleton.mp he2
            rw [he3] at hke
            exact absurd hke.symm hk
      · intro d hd
        rcases List.mem_append.mp hd with hd' | hd'
        · obtain ⟨e, he, hk⟩ := hcov d hd'
          by_cases hkd : depKey e = depKey dep
          · exact ⟨dep, mapSetDep_self_mem m dep existing hex_mem hex_key, by rw [← hkd, hk]⟩
          · exact ⟨e, mapSetDep_mem_of_ne m dep e he hkd, hk⟩
        · have hd'' : d = dep := List.mem_singleton.mp hd'
          exact ⟨dep, mapSetDep_self_mem m dep existing hex_mem hex_key, by rw [hd'']⟩
    · rw [if_neg hlt]
      refine ⟨hnd, ?_, ?_⟩
      · intro x hx
        obtain ⟨l1', l2', hp', hb', ha'⟩ := hkept x hx
        refine ⟨l1', l2' ++ [dep], by rw [hp']; simp, hb', ?_⟩
        intro e he hke
        rcases List.mem_append.mp he with he1 | he2
        · exact ha' e he1 hke
        · have he3 : e = dep := List.mem_singleton.mp he2
          rw [he3] at hke
          have hxe : x = existing :=
            List.inj_on_of_nodup_map hnd hx hex_mem (by rw [← hke, hex_key])
          rw [he3, hxe]
          omega
      · intro d hd
        rcases List.mem_append.mp hd with hd' | hd'
        · exact hcov d hd'
        · have hd'' : d = dep := List.mem_singleton.mp hd'
          exact ⟨existing, hex_mem, by rw [hd'', hex_key]⟩

theorem mediation_foldl_inv :
    ∀ (deps p m : List MavenDependency), MediationInv p m →
      MediationInv (p ++ deps) (deps.foldl mediationStep m) := by
  intro deps
  induction deps with
  | nil => intro p m h; simpa using h
  | cons d rest ih =>
    intro p m h
    rw [List.foldl_cons]
    have := ih (p ++ [d]) (mediationStep m d) (mediationStep_inv p m d h)
    simpa [List.append_assoc] using this

/-- Claim C1: conflict mediation returns a list in which no two coordinates
share a groupId:artifactId key; each returned coordinate is the
nearest-kept one for its key — smallest depth, earliest in the input among
equal depths (`nearestKept`) — and every key occurring in the input is
represented. -/
theorem claim_C1 (deps : List MavenDependency) :
    ((resolveVersionConflict deps).map depKey).Nodup
    ∧ (∀ d ∈ resolveVersionConflict deps, nearestKept deps d)
    ∧ (∀ d ∈ deps, ∃ e ∈ resolveVersionConflict deps, depKey e = depKey d) := by
  have hbase : MediationInv [] [] := by
    unfold MediationInv
    refine ⟨by simp, by simp, by simp⟩
  have := mediation_foldl_inv deps [] [] hbase
  simpa [resolveVersionConflict, MediationInv] using this

/-- Witness for C1: of two same-key coordinates, the shallower, later-listed
one is kept. -/
theorem claim_C1_witness : nearestKept [depMedNear, depMedFar] depMedFar :=
  (claim_C1 [depMedNear, depMedFar]).2.1 depMedFar (by decide)

theorem mediationInv_nil : MediationInv [] [] := by
  unfold MediationInv
  refine ⟨by simp, by simp, by simp⟩

theorem nearestKept_mem {deps : List MavenDependency} {d : MavenDependency}
    (h : nearestKept deps d) : d ∈ deps := by
  obtain ⟨l1, l2, hp, _, _⟩ := h
  rw [hp]
  exact List.mem_append_right _ (List.mem_cons_self _ _)

theorem resolveVersionConflict_mem {deps : List MavenDependency} {d : MavenDependency}
    (h : d ∈ resolveVersionConflict deps) : d ∈ deps := by
  have hinv := mediation_foldl_inv deps [] [] mediationInv_nil
  have hkept := hinv.2.1 d (by simpa [resolveVersionConflict] using h)
  simpa using nearestKept_mem hkept

theorem buildDirectDependencies_fields :
    ∀ (fuel : Nat) (deps : List RawDep) (project : RawProject) (context : PomContext),
      ∀ d ∈ buildDirectDependencies fuel deps project context,
        d.groupId ≠ "" ∧ d.artifactId ≠ "" ∧ d.version ≠ "" := by
  intro fuel deps project context
  induction deps with
  | nil => intro d hd; cases hd
  | cons dep rest ih =>
    intro d hd
    simp only [buildDirectDependencies] at hd
    split at hd
    · rcases List.mem_cons.mp hd with rfl | hd'
      · rename_i hc
        simp only [Bool.and_eq_true, bne_iff_ne] at hc
        exact ⟨hc.1.1, hc.1.2, hc.2⟩
      · exact ih d hd'
    · exact ih d hd

theorem buildTransitiveDeps_fields :
    ∀ (fuel : Nat) (deps : List RawDep) (depProject : RawProject) (mergedContext : PomContext)
      (parentExclusions : List (String × String)) (depth : Nat),
      ∀ d ∈ buildTransitiveDeps fuel deps depProject mergedContext parentExclusions depth,
        d.groupId ≠ "" ∧ d.artifactId ≠ "" ∧ d.version ≠ "" := by
  intro fuel deps depProject mergedContext parentExclusions depth
  induction deps with
  | nil => intro d hd; cases hd
  | cons dep rest ih =>
    intro d hd
    simp only [buildTransitiveDeps] at hd
    split at hd
    · split at hd
      · rcases List.mem_cons.mp hd with rfl | hd'
        · rename_i hc _
          simp only [Bool.and_eq_true, bne_iff_ne] at hc
          exact ⟨hc.1.1, hc.1.2, hc.2⟩
        · exact ih d hd'
      · exact ih d hd
    · exact ih d hd

theorem resolveTransitiveF_fields (repo : MavenRepo) (fuel : Nat) :
    ∀ (gas : Nat) (dep : MavenDependency) (context : PomContext) (visited : List String)
      (depth maxDepth : Nat) (pexcl : List (String × String)),
      ∀ d ∈ resolveTransitiveF repo fuel gas dep context visited depth maxDepth pexcl,
        d.groupId ≠ "" ∧ d.artifactId ≠ "" ∧ d.version ≠ "" := by
  intro gas
  induction gas with
  | zero =>
    intro dep context visited depth maxDepth pexcl d hd
    rw [resolveTransitiveF] at hd
    cases hd
  | succ g ih =>
    intro dep context visited depth maxDepth pexcl d hd
    simp only [resolveTransitiveF] at hd
    split at hd
    · cases hd
    · split at hd
      · cases hd
      · split at hd
        · cases hd
        · split at hd
          · cases hd
          · split at hd
            · cases hd
            · rcases List.mem_append.mp hd with h1 | h2
              · exact buildTransitiveDeps_fields fuel _ _ _ _ _ d h1
              · obtain ⟨td, htd, hd2⟩ := List.mem_flatMap.mp h2
                split at hd2
                · cases hd2
                · exact ih td _ _ _ _ _ d hd2

theorem parsePomCore_fields (repo : MavenRepo) (fuel : Nat) (project : RawProject)
    (context : PomContext) (maxDepth : Nat) (includeTransitive : Bool) (scopes : List String) :
    ∀ d ∈ filterByScope (resolveVersionConflict (
        if includeTransitive then
          buildDirectDependencies fuel project.dependencies project context ++
            (List.filter (fun d => !d.optional)
              (buildDirectDependencies fuel project.dependencies project context)).flatMap
              (fun d => resolveTransitiveDependencies repo fuel d context [] 0 maxDepth d.exclusions)
        else buildDirectDependencies fuel project.dependencies project context)) scopes,
      d.groupId ≠ "" ∧ d.artifactId ≠ "" ∧ d.version ≠ "" := by
  intro d hd
  have hd1 := (List.mem_filter.mp hd).1
  have hd2 := resolveVersionConflict_mem hd1
  split at hd2
  · rcases List.mem_append.mp hd2 with h3 | h3
    · exact buildDirectDependencies_fields fuel _ project context d h3
    · obtain ⟨dd, hdd, h4⟩ := List.mem_flatMap.mp h3
      unfold resolveTransitiveDependencies at h4
      exact resolveTransitiveF_fields repo fuel _ dd context [] 0 maxDepth dd.exclusions d h4
  · exact buildDirectDependencies_fields fuel _ project context d hd2

/-- C7: after placeholder substitution and version-management lookup, an
entry missing group, artifact or version is dropped without error, and every
coordinate `parsePom` returns has all three resolved. -/
theorem claim_C7 :
    (∀ (repo : MavenRepo) (fuel : Nat) (pomPath : Option String) (options : ParseOptions)
        (result : List MavenDependency),
      parsePom repo fuel pomPath options = Except.ok result →
      ∀ d ∈ result, d.groupId ≠ "" ∧ d.artifactId ≠ "" ∧ d.version ≠ "")
    ∧ (∀ (fuel : Nat) (dep : RawDep) (rest : List RawDep) (project : RawProject)
        (context : PomContext),
      ((resolveDepEntry fuel dep project context).1 = ""
        ∨ (resolveDepEntry fuel dep project context).2.1 = ""
        ∨ (resolveDepEntry fuel dep project context).2.2 = "") →
      buildDirectDependencies fuel (dep :: rest) project context =
        buildDirectDependencies fuel rest project context) := by
  constructor
  · intro repo fuel pomPath options result h d hd
    simp only [parsePom] at h
    split at h
    · cases h
    · split at h
      · cases h
      · rename_i project hpf
        injection h with h'
        rw [← h'] at hd
        exact parsePomCore_fields repo fuel project _ _ _ _ d hd
  · intro fuel dep rest project context hmiss
    simp only [buildDirectDependencies]
    rw [if_neg ?_]
    rcases hmiss with h | h | h <;> simp [h]

/-- Witness for C7: a complete entry survives with all fields resolved, and an
entry with no resolvable version is dropped. -/
theorem claim_C7_witness :
    (depResolved.groupId ≠ "" ∧ depResolved.artifactId ≠ "" ∧ depResolved.version ≠ "")
    ∧ buildDirectDependencies 5 [{ groupId := "g2", artifactId := "a2" }] {} {} =
        buildDirectDependencies 5 [] {} {} :=
  ⟨claim_C7.1 pomRepoExample 5 (some "pom.xml") {} [depResolved] (by rfl) depResolved
      (by decide),
    claim_C7.2 5 { groupId := "g2", artifactId := "a2" } [] {} {}
      (Or.inr (Or.inr (by decide)))⟩

/-- Claim C2: transitive resolution terminates for every graph, including the
two-node cycle a→b→a (second conjunct: the cycle resolves to exactly the
children [b at depth 1, a at depth 2] — the revisit of `a` is listed but not
descended into); a coordinate whose identity is on the active ancestor path
is never descended into (first conjunct); and the same identity may be
resolved again in a sibling branch (third conjunct: `c` and its child `d`
are resolved in both the `a` and `b` branches). -/
theorem claim_C2 :
    (∀ (repo : MavenRepo) (fuel : Nat) (dep : MavenDependency) (context : PomContext)
        (visited : List String) (depth maxDepth : Nat) (pexcl : List (String × String)),
      visited.contains (depKey dep) = true →
      resolveTransitiveDependencies repo fuel dep context visited depth maxDepth pexcl = [])
    ∧ resolveTransitiveDependencies cycleRepo 3 depCycleA {} [] 0 10 [] =
        [mkExDep "b" 1, mkExDep "a" 2]
    ∧ resolveTransitiveDependencies siblingRepo 3 depSibP {} [] 0 10 [] =
        [mkExDep "a" 1, mkExDep "b" 1, mkExDep "c" 2, mkExDep "d" 3,
          mkExDep "c" 2, mkExDep "d" 3] := by
  refine ⟨?_, by decide, by decide⟩
  intro repo fuel dep context visited depth maxDepth pexcl hv
  unfold resolveTransitiveDependencies
  cases hg : maxDepth + 1 - depth with
  | zero => rw [resolveTransitiveF]
  | succ g =>
    rw [resolveTransitiveF]
    by_cases hd : maxDepth ≤ depth
    · rw [if_pos hd]
    · rw [if_neg hd, if_pos hv]

/-- Witness for C2: with the identity `g:a` already on the ancestor path, the
cycle-guard returns no children. -/
theorem claim_C2_witness :
    resolveTransitiveDependencies cycleRepo 3 depCycleA {} ["g:a"] 0 10 [] = [] :=
  claim_C2.1 cycleRepo 3 depCycleA {} ["g:a"] 0 10 [] (by decide)
